import Mathlib

/- Shallow embedding of the holdings aggregation and valuation logic of the
groww-portfolio-tracker repository (src/streamlit_app.py and src/app.py).
Numeric values are modelled as rationals: the Python code computes with IEEE
doubles, whose rounding error is abstracted away; a NaN produced by numeric
parsing, and a price lookup that fails, returns an empty result or a NaN, are
modelled as Option.none.  String helpers are modelled over character lists so
that concrete inputs evaluate inside the kernel; they agree with the Python
string methods on the ASCII ticker strings this program handles. -/

namespace Groww

/- Models Python str.strip(): drop whitespace from both ends
(src/streamlit_app.py line 40). -/
def pyStrip (s : String) : String :=
  ⟨((s.data.dropWhile Char.isWhitespace).reverse.dropWhile Char.isWhitespace).reverse⟩

/- Models Python str.upper() on ASCII strings (src/streamlit_app.py line 40). -/
def pyUpper (s : String) : String :=
  ⟨s.data.map Char.toUpper⟩

/- The key normalization of src/streamlit_app.py line 40:
str(row['ticker']).strip().upper(). -/
def normalizeTicker (s : String) : String :=
  pyUpper (pyStrip s)

/- Bool test: pat is a prefix of s. -/
def startsWithL : List Char → List Char → Bool
  | [], _ => true
  | _ :: _, [] => false
  | p :: ps, c :: cs => p == c && startsWithL ps cs

/- Fuel-driven body of pyReplace; fuel is the length of the subject string,
and every step of the leftmost nonoverlapping scan consumes at least one
character whenever the pattern is nonempty. -/
def replaceAux (pat rep : List Char) : Nat → List Char → List Char
  | _, [] => []
  | 0, s => s
  | fuel + 1, c :: cs =>
    if startsWithL pat (c :: cs) then
      rep ++ replaceAux pat rep fuel ((c :: cs).drop pat.length)
    else
      c :: replaceAux pat rep fuel cs

/- Models Python str.replace(pat, rep) for a nonempty pattern: replace every
leftmost nonoverlapping occurrence (used for ticker.replace with the fixed
nonempty pattern .NS in src/streamlit_app.py line 144, src/app.py line 130). -/
def pyReplace (s pat rep : String) : String :=
  ⟨replaceAux pat.data rep.data s.data.length s.data⟩

/- A CSV trade row of src/streamlit_app.py after the pd.to_numeric coercion of
lines 29 and 30: none models a NaN from a failed numeric parse. -/
structure Raw where
  ticker : String
  type : String
  quantity : Option ℚ
  price : Option ℚ
deriving DecidableEq

/- One emitted position: the per-ticker dict of src/streamlit_app.py line 54
and src/app.py line 44. -/
structure Holding where
  qty : ℚ
  avg_price : ℚ
deriving DecidableEq

/- One accumulator entry of the defaultdict at src/streamlit_app.py line 37 and
src/app.py line 29; the list keeps dict insertion order. -/
structure Acc where
  ticker : String
  total_qty : ℚ
  total_cost : ℚ
deriving DecidableEq

/- agg[ticker] update: add q to total_qty and c to total_cost for the first
entry keyed by t, appending a fresh entry when t is absent, exactly as a
Python defaultdict indexed by t would (insertion order preserved). -/
def bump : List Acc → String → ℚ → ℚ → List Acc
  | [], t, q, c => [⟨t, q, c⟩]
  | a :: rest, t, q, c =>
    if a.ticker = t then ⟨a.ticker, a.total_qty + q, a.total_cost + c⟩ :: rest
    else a :: bump rest t q c

/- The loop body of src/streamlit_app.py lines 38 to 45: only rows whose type
is Buy and whose quantity and price both parsed are accumulated, under the
normalized ticker key. -/
def stepRow (acc : List Acc) (r : Raw) : List Acc :=
  if r.type = "Buy" then
    match r.quantity, r.price with
    | some q, some p => bump acc (normalizeTicker r.ticker) q (q * p)
    | _, _ => acc
  else acc

/- The whole accumulation loop of src/streamlit_app.py lines 37 to 45. -/
def aggRows (rows : List Raw) : List Acc :=
  rows.foldl stepRow []

/- The emission loop of src/streamlit_app.py lines 47 to 54 (identical in
src/app.py lines 37 to 44): keep entries with positive total quantity, with
average price total_cost / total_qty; the tickers list of the source is the
list of keys of this association list, in the same order. -/
def finalize (accs : List Acc) : List (String × Holding) :=
  accs.filterMap fun a =>
    if 0 < a.total_qty then some (a.ticker, ⟨a.total_qty, a.total_cost / a.total_qty⟩)
    else none

/- The observable outcome of load_holdings in src/streamlit_app.py: the two
warned counts of line 35, whether the except branch of lines 58 to 62
substituted the sample data, and the holdings mapping (whose keys, in order,
are the tickers list of the source). -/
structure LoadResult where
  warnBadQty : Nat
  warnBadPrice : Nat
  usedSample : Bool
  holdings : List (String × Holding)
deriving DecidableEq

def LoadResult.tickers (r : LoadResult) : List String :=
  r.holdings.map Prod.fst

/- The sample fallback of src/streamlit_app.py lines 60 to 61. -/
def streamlitSample : LoadResult :=
  ⟨0, 0, true, [("ADANIPOWER.NS", ⟨265, 10426 / 100⟩)]⟩

/- load_holdings of src/streamlit_app.py lines 26 to 62.  The input is none
when pd.read_csv raises (missing, unreadable or zero-byte file, or missing
columns), in which case the except branch returns the sample data; otherwise
it is the parsed row list after numeric coercion.  Note that the success path
returns whatever aggregation produced, even an empty holdings set. -/
def load_holdings (input : Option (List Raw)) : LoadResult :=
  match input with
  | none => streamlitSample
  | some rows =>
    { warnBadQty := rows.countP fun r => r.quantity.isNone
      warnBadPrice := rows.countP fun r => r.price.isNone
      usedSample := false
      holdings := finalize (aggRows rows) }

/- A CSV trade row as read by src/app.py lines 25 to 36, which applies no
numeric coercion; rows whose numeric cells did not parse as numbers are out of
scope of this model (in the source they raise inside the try block and land in
the sample-data fallback). -/
structure DRow where
  ticker : String
  type : String
  quantity : ℚ
  price : ℚ
deriving DecidableEq

/- The loop body of src/app.py lines 30 to 36: every Buy row is accumulated
under the raw ticker string str(row['ticker']), with no normalization and no
validity check. -/
def dashStep (acc : List Acc) (r : DRow) : List Acc :=
  if r.type = "Buy" then bump acc r.ticker r.quantity (r.quantity * r.price)
  else acc

def dashAgg (rows : List DRow) : List Acc :=
  rows.foldl dashStep []

/- The sample fallback of src/app.py lines 54 to 59. -/
def dashSample : List (String × Holding) :=
  [("ADANIPOWER.NS", ⟨50, 250⟩), ("HDFCBANK.NS", ⟨20, 1500⟩), ("INFY.NS", ⟨40, 1800⟩)]

/- load_holdings of src/app.py lines 23 to 60: a read failure (none) falls to
the sample data; an aggregation with no emitted tickers raises ValueError at
line 47, which the except branch turns into the sample data as well. -/
def dashLoad (input : Option (List DRow)) : List (String × Holding) :=
  match input with
  | none => dashSample
  | some rows =>
    let hs := finalize (dashAgg rows)
    if hs.isEmpty then dashSample else hs

/- Net quantity of the holdings_calc backup embedded in src/app.py lines 220
to 223: per raw ticker, the sum of Buy quantities minus the sum of Sell
quantities.  Only the quantity aggregation of that variant is modelled; its
average price column is not needed by any claim. -/
def hcNetQty (rows : List DRow) (t : String) : ℚ :=
  (((rows.filter fun r => r.ticker == t && r.type == "Buy").map fun r => r.quantity).sum)
    - (((rows.filter fun r => r.ticker == t && r.type == "Sell").map fun r => r.quantity).sum)

/- First-match lookup in an association list, the dict access
holdings[ticker] of the sources. -/
def lookupH (t : String) : List (String × Holding) → Option Holding
  | [] => none
  | p :: rest => if p.1 = t then some p.2 else lookupH t rest

/- One row of the valuation table of src/streamlit_app.py lines 122 to 153. -/
structure VRow where
  ticker : String
  qty : ℚ
  avg_price : ℚ
  ltp : ℚ
  invested : ℚ
  current_value : ℚ
  unrealized_pl : ℚ
  pct_chg : ℚ
  status : String
deriving DecidableEq

/- The row construction of src/streamlit_app.py lines 125 to 153: a price of
none (lookup failed, empty history, or NaN) falls back to the average price
with status Avg Fallback, otherwise the looked-up price is used with status
Live. -/
def mkRow (ticker : String) (h : Holding) (price : Option ℚ) : VRow :=
  let qty := h.qty
  let avg := h.avg_price
  let lp : ℚ × String :=
    match price with
    | none => (avg, "Avg Fallback")
    | some p => (p, "Live")
  { ticker := pyReplace ticker (".NS") ("")
    qty := qty
    avg_price := avg
    ltp := lp.1
    invested := qty * avg
    current_value := qty * lp.1
    unrealized_pl := qty * lp.1 - qty * avg
    pct_chg := if avg ≠ 0 then (lp.1 - avg) / avg * 100 else 0
    status := lp.2 }

/- The row loop of src/streamlit_app.py lines 121 to 155: one row per ticker
present in the holdings mapping, in ticker order. -/
def buildRows (tickers : List String) (holdings : List (String × Holding))
    (prices : String → Option ℚ) : List VRow :=
  tickers.filterMap fun t => (lookupH t holdings).map fun h => mkRow t h (prices t)

/- Rounding to two decimal places with ties to even, the behaviour of the
pandas Series.round(2) at src/streamlit_app.py line 160 and line 139 of
src/app.py (numpy rounds half to even). -/
def round2 (q : ℚ) : ℚ :=
  let y := q * 100
  let f : ℤ := Int.floor y
  let r := y - (f : ℚ)
  if r < 1 / 2 then (f : ℚ) / 100
  else if 1 / 2 < r then ((f + 1 : ℤ) : ℚ) / 100
  else (if f % 2 = 0 then (f : ℚ) else ((f + 1 : ℤ) : ℚ)) / 100

/- The allocation column of src/streamlit_app.py lines 159 to 160:
df['Current Value'] / total_current * 100, rounded to two decimals.  The
division is not guarded: when total_current is 0 the float division yields NaN
(0 / 0) or a signed infinity, modelled here as none. -/
def allocPct (total cv : ℚ) : Option ℚ :=
  if total = 0 then none else some (round2 (cv / total * 100))

/- A valuation row together with its allocation percentage. -/
structure FullRow where
  row : VRow
  alloc : Option ℚ
deriving DecidableEq

def sortKey (r : FullRow) : ℚ :=
  r.row.current_value

/- Lines 159 to 160 of src/streamlit_app.py: the allocation column is computed
from the total of the current values before any sorting. -/
def addAlloc (rows : List VRow) : List FullRow :=
  let total := (rows.map fun r => r.current_value).sum
  rows.map fun r => ⟨r, allocPct total r.current_value⟩

/- Stable insertion into an ascending run: an element with an equal key goes
after the existing ones. -/
def insertAsc (x : FullRow) : List FullRow → List FullRow
  | [] => [x]
  | y :: ys => if sortKey x < sortKey y then x :: y :: ys else y :: insertAsc x ys

/- A stable ascending sort by current value. -/
def sortAsc (l : List FullRow) : List FullRow :=
  l.foldl (fun acc x => insertAsc x acc) []

/- df.sort_values('Current Value', ascending=False) at src/streamlit_app.py
line 161: pandas argsorts the column ascending and reverses the resulting
indexer, so the descending order is the reverse of a stable ascending order
and rows with tied keys come out in reverse original order.  numpy quicksort
degenerates to a stable insertion sort below 16 elements; this model assumes
that stable regime (for longer inputs numpy introsort may permute ties
differently, but never into original order in general). -/
def sortDesc (l : List FullRow) : List FullRow :=
  (sortAsc l).reverse

/- build_holdings_df of src/streamlit_app.py lines 112 to 164, restricted to
the holdings table itself (the Nifty benchmark fields of lines 114 to 119 are
independent of the table and touched by no claim). -/
def build_holdings_df (tickers : List String) (holdings : List (String × Holding))
    (prices : String → Option ℚ) : List FullRow :=
  sortDesc (addAlloc (buildRows tickers holdings prices))

def totalInvested (out : List FullRow) : ℚ :=
  (out.map fun r => r.row.invested).sum

def totalValue (out : List FullRow) : ℚ :=
  (out.map fun r => r.row.current_value).sum

def totalPL (out : List FullRow) : ℚ :=
  (out.map fun r => r.row.unrealized_pl).sum

/- The Total Return metric of src/streamlit_app.py lines 226 to 228. -/
def total_return_pct (out : List FullRow) : ℚ :=
  if totalInvested out ≠ 0 then totalPL out / totalInvested out * 100 else 0

/- One row of the dash table built by build_holdings_df of src/app.py lines
116 to 140; pct_chg stores the raw float of line 127, before the round at
line 139. -/
structure DashRow where
  ticker : String
  qty : ℚ
  avg_price : ℚ
  ltp : ℚ
  value : ℚ
  pct_chg : ℚ
  unrealized : ℚ
deriving DecidableEq

/- Lines 122 to 137 of src/app.py: a price that is missing or NaN falls back
to the average price; pct_chg is guarded by avg_price > 0 there, not by
avg_price != 0. -/
def dashMkRow (t : String) (h : Holding) (price : Option ℚ) : DashRow :=
  let ltp := price.getD h.avg_price
  { ticker := pyReplace t (".NS") ("")
    qty := h.qty
    avg_price := h.avg_price
    ltp := ltp
    value := h.qty * ltp
    pct_chg := if 0 < h.avg_price then (ltp - h.avg_price) / h.avg_price * 100 else 0
    unrealized := h.qty * ltp - h.qty * h.avg_price }

def dashBuildRows (tickers : List String) (holdings : List (String × Holding))
    (prices : String → Option ℚ) : List DashRow :=
  tickers.filterMap fun t => (lookupH t holdings).map fun h => dashMkRow t h (prices t)

/- The Total Return metric of src/app.py line 176: the unweighted mean of the
%Chg column (each entry rounded to two decimals at line 139), 0 for an empty
table.  The sort at line 140 does not affect the mean and is not repeated
here. -/
def dashTotalReturn (rows : List DashRow) : ℚ :=
  if rows.isEmpty then 0
  else ((rows.map fun r => round2 r.pct_chg).sum) / (rows.length : ℚ)

/- The valid Buy records of a row list that normalize to ticker t, as
quantity and price pairs, in order: the rows that the aggregation loop of
src/streamlit_app.py lines 38 to 45 accumulates under key t. -/
def validBuysFor (rows : List Raw) (t : String) : List (ℚ × ℚ) :=
  rows.filterMap fun r =>
    if r.type = "Buy" then
      match r.quantity, r.price with
      | some q, some p => if normalizeTicker r.ticker = t then some (q, p) else none
      | _, _ => none
    else none

/- Total quantity of the valid Buy records for t. -/
def buyQty (rows : List Raw) (t : String) : ℚ :=
  ((validBuysFor rows t).map Prod.fst).sum

/- Total cost (quantity times unit price) of the valid Buy records for t. -/
def buyCost (rows : List Raw) (t : String) : ℚ :=
  ((validBuysFor rows t).map fun qp => qp.1 * qp.2).sum

/- The accumulated quantity held for t by an accumulator list (first entry
keyed t, 0 when absent). -/
def accQty (t : String) : List Acc → ℚ
  | [] => 0
  | a :: rest => if a.ticker = t then a.total_qty else accQty t rest

/- The accumulated cost held for t by an accumulator list. -/
def accCost (t : String) : List Acc → ℚ
  | [] => 0
  | a :: rest => if a.ticker = t then a.total_cost else accCost t rest

/- Quantity contributed by a single row to the accumulator entry of t: its
quantity when it is a valid Buy row normalizing to t, otherwise 0. -/
def contribQty (r : Raw) (t : String) : ℚ :=
  if r.type = "Buy" then
    match r.quantity, r.price with
    | some q, some _ => if normalizeTicker r.ticker = t then q else 0
    | _, _ => 0
  else 0

/- Cost contributed by a single row to the accumulator entry of t. -/
def contribCost (r : Raw) (t : String) : ℚ :=
  if r.type = "Buy" then
    match r.quantity, r.price with
    | some q, some p => if normalizeTicker r.ticker = t then q * p else 0
    | _, _ => 0
  else 0

/- The total of the Current Value column before the allocation division, the
total_current of src/streamlit_app.py line 159. -/
def totalCurrent (tickers : List String) (holdings : List (String × Holding))
    (prices : String → Option ℚ) : ℚ :=
  ((buildRows tickers holdings prices).map fun r => r.current_value).sum

/- Two raw rows that differ at most in the spelling of the ticker, and only up
to whitespace and letter case. -/
def rowEquiv (r s : Raw) : Prop :=
  normalizeTicker r.ticker = normalizeTicker s.ticker ∧ r.type = s.type
    ∧ r.quantity = s.quantity ∧ r.price = s.price

theorem accQty_bump (l : List Acc) (t k : String) (q c : ℚ) :
    accQty t (bump l k q c) = if k = t then accQty t l + q else accQty t l := by
  induction l with
  | nil => by_cases h : k = t <;> simp [bump, accQty, h]
  | cons a rest ih =>
    by_cases h1 : a.ticker = k
    · by_cases h2 : k = t
      · subst h2
        simp [bump, accQty, h1]
      · have h3 : ¬ a.ticker = t := fun hh => h2 (h1 ▸ hh)
        simp [bump, accQty, h1, h2, h3]
    · by_cases h2 : a.ticker = t
      · have hkt : ¬ k = t := fun hh => h1 (h2.trans hh.symm)
        have hkt2 : ¬ t = k := fun hh => h1 (h2.trans hh)
        simp [bump, accQty, h1, h2, hkt, hkt2]
      · simp [bump, accQty, h1, h2, ih]

theorem accCost_bump (l : List Acc) (t k : String) (q c : ℚ) :
    accCost t (bump l k q c) = if k = t then accCost t l + c else accCost t l := by
  induction l with
  | nil => by_cases h : k = t <;> simp [bump, accCost, h]
  | cons a rest ih =>
    by_cases h1 : a.ticker = k
    · by_cases h2 : k = t
      · subst h2
        simp [bump, accCost, h1]
      · have h3 : ¬ a.ticker = t := fun hh => h2 (h1 ▸ hh)
        simp [bump, accCost, h1, h2, h3]
    · by_cases h2 : a.ticker = t
      · have hkt : ¬ k = t := fun hh => h1 (h2.trans hh.symm)
        have hkt2 : ¬ t = k := fun hh => h1 (h2.trans hh)
        simp [bump, accCost, h1, h2, hkt, hkt2]
      · simp [bump, accCost, h1, h2, ih]

theorem accQty_stepRow (acc : List Acc) (r : Raw) (t : String) :
    accQty t (stepRow acc r) = accQty t acc + contribQty r t := by
  unfold stepRow contribQty
  by_cases hb : r.type = "Buy"
  · simp only [hb, if_true]
    cases hq : r.quantity with
    | none => cases r.price <;> simp
    | some q =>
      cases hp : r.price with
      | none => simp
      | some p =>
        rw [accQty_bump]
        by_cases hn : normalizeTicker r.ticker = t <;> simp [hn]
  · simp [hb]

theorem accCost_stepRow (acc : List Acc) (r : Raw) (t : String) :
    accCost t (stepRow acc r) = accCost t acc + contribCost r t := by
  unfold stepRow contribCost
  by_cases hb : r.type = "Buy"
  · simp only [hb, if_true]
    cases hq : r.quantity with
    | none => cases r.price <;> simp
    | some q =>
      cases hp : r.price with
      | none => simp
      | some p =>
        rw [accCost_bump]
        by_cases hn : normalizeTicker r.ticker = t <;> simp [hn]
  · simp [hb]

theorem buyQty_cons (r : Raw) (rows : List Raw) (t : String) :
    buyQty (r :: rows) t = contribQty r t + buyQty rows t := by
  unfold buyQty validBuysFor contribQty
  rw [List.filterMap_cons]
  by_cases hb : r.type = "Buy"
  · simp only [hb, if_true]
    cases r.quantity with
    | none => cases r.price <;> simp
    | some q =>
      cases r.price with
      | none => simp
      | some p =>
        by_cases hn : normalizeTicker r.ticker = t <;> simp [hn]
  · simp [hb]

theorem buyCost_cons (r : Raw) (rows : List Raw) (t : String) :
    buyCost (r :: rows) t = contribCost r t + buyCost rows t := by
  unfold buyCost validBuysFor contribCost
  rw [List.filterMap_cons]
  by_cases hb : r.type = "Buy"
  · simp only [hb, if_true]
    cases r.quantity with
    | none => cases r.price <;> simp
    | some q =>
      cases r.price with
      | none => simp
      | some p =>
        by_cases hn : normalizeTicker r.ticker = t <;> simp [hn]
  · simp [hb]

theorem accQty_foldl (rows : List Raw) :
    ∀ (acc : List Acc) (t : String),
      accQty t (rows.foldl stepRow acc) = accQty t acc + buyQty rows t := by
  induction rows with
  | nil => intro acc t; simp [buyQty, validBuysFor]
  | cons r rows ih =>
    intro acc t
    rw [List.foldl_cons, ih, accQty_stepRow, buyQty_cons]
    ring

theorem accCost_foldl (rows : List Raw) :
    ∀ (acc : List Acc) (t : String),
      accCost t (rows.foldl stepRow acc) = accCost t acc + buyCost rows t := by
  induction rows with
  | nil => intro acc t; simp [buyCost, validBuysFor]
  | cons r rows ih =>
    intro acc t
    rw [List.foldl_cons, ih, accCost_stepRow, buyCost_cons]
    ring

theorem accQty_aggRows (rows : List Raw) (t : String) :
    accQty t (aggRows rows) = buyQty rows t := by
  unfold aggRows
  rw [accQty_foldl]
  simp [accQty]

theorem accCost_aggRows (rows : List Raw) (t : String) :
    accCost t (aggRows rows) = buyCost rows t := by
  unfold aggRows
  rw [accCost_foldl]
  simp [accCost]

theorem bump_map_ticker (l : List Acc) (k : String) (q c : ℚ) :
    (bump l k q c).map Acc.ticker
      = if k ∈ l.map Acc.ticker then l.map Acc.ticker else l.map Acc.ticker ++ [k] := by
  induction l with
  | nil => simp [bump]
  | cons a rest ih =>
    by_cases h1 : a.ticker = k
    · simp [bump, h1]
    · have : ¬ k = a.ticker := fun hh => h1 hh.symm
      simp [bump, h1, ih, this]
      split <;> simp

theorem nodup_bump (l : List Acc) (k : String) (q c : ℚ)
    (h : (l.map Acc.ticker).Nodup) : ((bump l k q c).map Acc.ticker).Nodup := by
  rw [bump_map_ticker]
  split
  · exact h
  · rename_i hk
    simp [List.nodup_append, h, hk]

theorem nodup_stepRow (acc : List Acc) (r : Raw)
    (h : (acc.map Acc.ticker).Nodup) : ((stepRow acc r).map Acc.ticker).Nodup := by
  unfold stepRow
  split
  · cases r.quantity with
    | none => cases r.price <;> exact h
    | some q =>
      cases r.price with
      | none => exact h
      | some p => exact nodup_bump _ _ _ _ h
  · exact h

theorem nodup_aggRows_aux (rows : List Raw) :
    ∀ acc : List Acc, (acc.map Acc.ticker).Nodup →
      ((rows.foldl stepRow acc).map Acc.ticker).Nodup := by
  induction rows with
  | nil => intro acc h; exact h
  | cons r rows ih =>
    intro acc h
    rw [List.foldl_cons]
    exact ih _ (nodup_stepRow _ _ h)

theorem nodup_aggRows (rows : List Raw) : ((aggRows rows).map Acc.ticker).Nodup :=
  nodup_aggRows_aux rows [] (by simp)

theorem finalize_cons (a : Acc) (rest : List Acc) :
    finalize (a :: rest)
      = if 0 < a.total_qty
        then (a.ticker, ⟨a.total_qty, a.total_cost / a.total_qty⟩) :: finalize rest
        else finalize rest := by
  by_cases hq : 0 < a.total_qty <;>
    simp [finalize, List.filterMap_cons, hq]

theorem finalize_qty_pos (accs : List Acc) :
    ∀ (t : String) (h : Holding), lookupH t (finalize accs) = some h → 0 < h.qty := by
  induction accs with
  | nil => intro t h hl; simp [finalize, lookupH] at hl
  | cons a rest ih =>
    intro t h hl
    by_cases hq : 0 < a.total_qty
    · rw [finalize_cons, if_pos hq] at hl
      by_cases ht : a.ticker = t
      · simp [lookupH, ht] at hl
        rw [← hl]
        exact hq
      · simp only [lookupH, ht, if_false] at hl
        exact ih t h hl
    · rw [finalize_cons, if_neg hq] at hl
      exact ih t h hl

theorem lookupH_finalize_absent (accs : List Acc) :
    ∀ t : String, t ∉ accs.map Acc.ticker → lookupH t (finalize accs) = none := by
  induction accs with
  | nil => intro t _; simp [finalize, lookupH]
  | cons a rest ih =>
    intro t ht
    simp only [List.map_cons, List.mem_cons, not_or] at ht
    have hne : ¬ a.ticker = t := fun hh => ht.1 hh.symm
    by_cases hq : 0 < a.total_qty
    · rw [finalize_cons, if_pos hq]
      simp only [lookupH, hne, if_false]
      exact ih t ht.2
    · rw [finalize_cons, if_neg hq]
      exact ih t ht.2

theorem lookupH_finalize (accs : List Acc) :
    ∀ (t : String) (h : Holding), (accs.map Acc.ticker).Nodup →
      lookupH t (finalize accs) = some h →
      h.qty = accQty t accs ∧ h.avg_price = accCost t accs / accQty t accs := by
  induction accs with
  | nil => intro t h _ hl; simp [finalize, lookupH] at hl
  | cons a rest ih =>
    intro t h hnd hl
    simp only [List.map_cons, List.nodup_cons] at hnd
    by_cases hq : 0 < a.total_qty
    · rw [finalize_cons, if_pos hq] at hl
      by_cases ht : a.ticker = t
      · simp [lookupH, ht] at hl
        rw [← hl]
        simp [accQty, accCost, ht]
      · simp only [lookupH, ht, if_false] at hl
        simpa [accQty, accCost, ht] using ih t h hnd.2 hl
    · rw [finalize_cons, if_neg hq] at hl
      by_cases ht : a.ticker = t
      · subst ht
        rw [lookupH_finalize_absent rest a.ticker hnd.1] at hl
        exact absurd hl (by simp)
      · simpa [accQty, accCost, ht] using ih t h hnd.2 hl

theorem stepRow_invalid (acc : List Acc) (r : Raw)
    (h : r.quantity = none ∨ r.price = none) : stepRow acc r = acc := by
  unfold stepRow
  by_cases hb : r.type = "Buy"
  · simp only [hb, if_true]
    rcases h with h | h
    · rw [h]
    · rw [h]
      cases r.quantity <;> rfl
  · simp [hb]

theorem foldl_filter_valid (rows : List Raw) :
    ∀ acc : List Acc,
      rows.foldl stepRow acc
        = (rows.filter fun r => r.quantity.isSome && r.price.isSome).foldl stepRow acc := by
  induction rows with
  | nil => intro acc; rfl
  | cons r rows ih =>
    intro acc
    by_cases hv : (r.quantity.isSome && r.price.isSome) = true
    · rw [List.foldl_cons, List.filter_cons, if_pos hv, List.foldl_cons, ih]
    · have hinv : r.quantity = none ∨ r.price = none := by
        cases hq : r.quantity <;> cases hp : r.price <;> simp_all
      rw [List.foldl_cons, stepRow_invalid acc r hinv, List.filter_cons, if_neg hv, ih]

theorem foldl_filter_buy (rows : List Raw) :
    ∀ acc : List Acc,
      rows.foldl stepRow acc
        = (rows.filter fun r => r.type == "Buy").foldl stepRow acc := by
  induction rows with
  | nil => intro acc; rfl
  | cons r rows ih =>
    intro acc
    by_cases hb : r.type = "Buy"
    · rw [List.foldl_cons, List.filter_cons, if_pos (by simp [hb]), List.foldl_cons, ih]
    · have hs : stepRow acc r = acc := by unfold stepRow; simp [hb]
      rw [List.foldl_cons, hs, List.filter_cons, if_neg (by simp [hb]), ih]

theorem dash_foldl_filter_buy (rows : List DRow) :
    ∀ acc : List Acc,
      rows.foldl dashStep acc
        = (rows.filter fun r => r.type == "Buy").foldl dashStep acc := by
  induction rows with
  | nil => intro acc; rfl
  | cons r rows ih =>
    intro acc
    by_cases hb : r.type = "Buy"
    · rw [List.foldl_cons, List.filter_cons, if_pos (by simp [hb]), List.foldl_cons, ih]
    · have hs : dashStep acc r = acc := by unfold dashStep; simp [hb]
      rw [List.foldl_cons, hs, List.filter_cons, if_neg (by simp [hb]), ih]

theorem stepRow_congr (r s : Raw) (he : rowEquiv r s) (acc : List Acc) :
    stepRow acc r = stepRow acc s := by
  obtain ⟨h1, h2, h3, h4⟩ := he
  unfold stepRow
  rw [h1, h2, h3, h4]

theorem foldl_congr_equiv (l₁ l₂ : List Raw) (hf : List.Forall₂ rowEquiv l₁ l₂) :
    ∀ acc : List Acc, l₁.foldl stepRow acc = l₂.foldl stepRow acc := by
  induction hf with
  | nil => intro acc; rfl
  | cons hr ht ih =>
    intro acc
    rw [List.foldl_cons, List.foldl_cons, stepRow_congr _ _ hr]
    exact ih _

theorem countP_congr_equiv_qty (l₁ l₂ : List Raw) (hf : List.Forall₂ rowEquiv l₁ l₂) :
    (l₁.countP fun r => r.quantity.isNone) = l₂.countP fun r => r.quantity.isNone := by
  induction hf with
  | nil => rfl
  | cons hr ht ih => simp [List.countP_cons, hr.2.2.1, ih]

theorem countP_congr_equiv_price (l₁ l₂ : List Raw) (hf : List.Forall₂ rowEquiv l₁ l₂) :
    (l₁.countP fun r => r.price.isNone) = l₂.countP fun r => r.price.isNone := by
  induction hf with
  | nil => rfl
  | cons hr ht ih => simp [List.countP_cons, hr.2.2.2, ih]

/-- C1: for every input row sequence of the streamlit aggregator, every
emitted position holds exactly the sum of the quantities of the valid Buy
records that normalize to its instrument id, and its average cost is the
quantity-weighted mean purchase price total cost over total quantity. -/
theorem C1_aggregator_weighted_average (rows : List Raw) (t : String) (h : Holding)
    (hl : lookupH t (load_holdings (some rows)).holdings = some h) :
    h.qty = buyQty rows t ∧ h.avg_price = buyCost rows t / buyQty rows t := by
  have hl2 : lookupH t (finalize (aggRows rows)) = some h := by
    simpa [load_holdings] using hl
  obtain ⟨h1, h2⟩ := lookupH_finalize (aggRows rows) t h (nodup_aggRows rows) hl2
  rw [accQty_aggRows] at h1
  rw [accQty_aggRows, accCost_aggRows] at h2
  exact ⟨h1, h2⟩

theorem C1_aggregator_weighted_average_witness :
    (lookupH ("A") (load_holdings (some
        [⟨"A", "Buy", some 10, some 100⟩, ⟨"A", "Buy", some 10, some 200⟩])).holdings
      = some ⟨20, 150⟩)
    ∧ ((⟨20, 150⟩ : Holding).qty
        = buyQty [⟨"A", "Buy", some 10, some 100⟩, ⟨"A", "Buy", some 10, some 200⟩] ("A")
      ∧ (⟨20, 150⟩ : Holding).avg_price
          = buyCost [⟨"A", "Buy", some 10, some 100⟩, ⟨"A", "Buy", some 10, some 200⟩] ("A")
            / buyQty [⟨"A", "Buy", some 10, some 100⟩, ⟨"A", "Buy", some 10, some 200⟩] ("A"))
    ∧ (load_holdings (some
        [⟨"A", "Buy", some 10, some 100⟩, ⟨"A", "Buy", some 10, some 200⟩])).tickers = ["A"] :=
  ⟨by with_unfolding_all decide,
   C1_aggregator_weighted_average _ _ _ (by with_unfolding_all decide),
   by with_unfolding_all decide⟩

/-- C6: rows whose quantity or price failed numeric parsing are skipped by the
streamlit aggregator without contributing to any accumulator (the holdings
output only depends on the rows whose numeric fields parsed), the bad-quantity
and bad-price counts are surfaced in the load result rather than thrown, and
the spec scenario with one malformed row yields the single position A with
quantity 10 and average cost 100 and one row counted invalid. -/
theorem C6_malformed_rows_skipped_and_warned :
    (∀ rows : List Raw,
        (load_holdings (some rows)).holdings
          = (load_holdings (some
              (rows.filter fun r => r.quantity.isSome && r.price.isSome))).holdings)
    ∧ (∀ rows : List Raw,
        (load_holdings (some rows)).warnBadQty = rows.countP (fun r => r.quantity.isNone)
          ∧ (load_holdings (some rows)).warnBadPrice = rows.countP (fun r => r.price.isNone))
    ∧ load_holdings (some [⟨"A", "Buy", none, some 100⟩, ⟨"A", "Buy", some 10, some 100⟩])
        = ⟨1, 0, false, [("A", ⟨10, 100⟩)]⟩ := by
  refine ⟨?_, ?_, ?_⟩
  · intro rows
    simp only [load_holdings]
    exact congrArg finalize (foldl_filter_valid rows [])
  · intro rows
    exact ⟨rfl, rfl⟩
  · with_unfolding_all decide

/-- C7 amended: the streamlit aggregator keys rows by the trimmed upper-cased
instrument id, so row sequences whose tickers differ only by surrounding
whitespace or letter casing load identically; the dash aggregator of
src/app.py keys on the raw string and does split such instruments (see the
counterexample). -/
theorem C7_normalization_merges_equivalent_tickers (l₁ l₂ : List Raw)
    (hf : List.Forall₂ rowEquiv l₁ l₂) :
    load_holdings (some l₁) = load_holdings (some l₂) := by
  simp only [load_holdings]
  rw [countP_congr_equiv_qty _ _ hf, countP_congr_equiv_price _ _ hf,
    show aggRows l₁ = aggRows l₂ from foldl_congr_equiv _ _ hf []]

theorem C7_normalization_merges_equivalent_tickers_witness :
    List.Forall₂ rowEquiv [⟨" hdfc ", "Buy", some 1, some 2⟩] [⟨"HDFC", "Buy", some 1, some 2⟩]
    ∧ load_holdings (some [⟨" hdfc ", "Buy", some 1, some 2⟩])
        = load_holdings (some [⟨"HDFC", "Buy", some 1, some 2⟩]) :=
  ⟨.cons ⟨by decide, rfl, rfl, rfl⟩ .nil,
   C7_normalization_merges_equivalent_tickers _ _ (.cons ⟨by decide, rfl, rfl, rfl⟩ .nil)⟩

theorem C7_counterexample_dash_loader_splits_ticker :
    dashLoad (some [⟨"a ", "Buy", 1, 1⟩, ⟨"A", "Buy", 1, 1⟩])
      = [("a ", ⟨1, 1⟩), ("A", ⟨1, 1⟩)]
    ∧ normalizeTicker ("a ") = normalizeTicker ("A")
    ∧ ("a " : String) ≠ "A" := by
  with_unfolding_all decide

/-- C8: every position emitted by either loader has strictly positive
quantity: instruments whose accumulated quantity is not positive are excluded,
and both sample fallbacks contain only positive quantities. -/
theorem C8_emitted_positions_positive :
    (∀ (input : Option (List Raw)) (t : String) (h : Holding),
        lookupH t (load_holdings input).holdings = some h → 0 < h.qty)
    ∧ (∀ (input : Option (List DRow)) (t : String) (h : Holding),
        lookupH t (dashLoad input) = some h → 0 < h.qty) := by
  constructor
  · intro input t h hl
    cases input with
    | none =>
      simp only [load_holdings, streamlitSample, lookupH] at hl
      split at hl
      · rw [Option.some.injEq] at hl
        rw [← hl]
        norm_num
      · exact absurd hl (by simp)
    | some rows =>
      exact finalize_qty_pos _ t h (by simpa [load_holdings] using hl)
  · intro input t h hl
    cases input with
    | none =>
      simp only [dashLoad, dashSample, lookupH] at hl
      split at hl
      · rw [Option.some.injEq] at hl
        rw [← hl]
        norm_num
      · split at hl
        · rw [Option.some.injEq] at hl
          rw [← hl]
          norm_num
        · split at hl
          · rw [Option.some.injEq] at hl
            rw [← hl]
            norm_num
          · exact absurd hl (by simp)
    | some rows =>
      simp only [dashLoad] at hl
      split at hl
      · simp only [dashSample, lookupH] at hl
        split at hl
        · rw [Option.some.injEq] at hl
          rw [← hl]
          norm_num
        · split at hl
          · rw [Option.some.injEq] at hl
            rw [← hl]
            norm_num
          · split at hl
            · rw [Option.some.injEq] at hl
              rw [← hl]
              norm_num
            · exact absurd hl (by simp)
      · exact finalize_qty_pos _ t h hl

theorem C8_emitted_positions_positive_witness :
    (lookupH ("A") (load_holdings (some [⟨"A", "Buy", some 10, some 100⟩])).holdings
      = some ⟨10, 100⟩)
    ∧ 0 < (⟨10, 100⟩ : Holding).qty :=
  ⟨by with_unfolding_all decide,
   C8_emitted_positions_positive.1 (some [⟨"A", "Buy", some 10, some 100⟩]) ("A") ⟨10, 100⟩
     (by with_unfolding_all decide)⟩

/-- C9 amended: when the trade source is unreadable both loaders substitute
their documented sample holdings; a readable source whose aggregation emits no
position triggers the sample fallback in the dash loader (its ValueError is
caught by its except branch), while the streamlit loader returns the empty
holdings set unchanged (see the counterexample). -/
theorem C9_unreadable_source_fallback :
    load_holdings none = streamlitSample
    ∧ dashLoad none = dashSample
    ∧ (∀ rows : List DRow, finalize (dashAgg rows) = [] → dashLoad (some rows) = dashSample) := by
  refine ⟨rfl, rfl, ?_⟩
  intro rows h
  simp [dashLoad, h]

theorem C9_unreadable_source_fallback_witness :
    finalize (dashAgg [⟨"A", "Sell", 1, 1⟩]) = []
    ∧ dashLoad (some [⟨"A", "Sell", 1, 1⟩]) = dashSample :=
  ⟨by with_unfolding_all decide,
   C9_unreadable_source_fallback.2.2 _ (by with_unfolding_all decide)⟩

theorem C9_counterexample_streamlit_keeps_empty_holdings :
    load_holdings (some [⟨"A", "Sell", some 1, some 1⟩]) = ⟨0, 0, false, []⟩
    ∧ (⟨0, 0, false, []⟩ : LoadResult) ≠ streamlitSample
    ∧ (load_holdings (some [⟨"A", "Sell", some 1, some 1⟩])).tickers = [] := by
  with_unfolding_all decide

/-- C10 amended: for the two load_holdings aggregators, rows whose action is
not Buy never affect the holdings output, which depends only on the Buy rows;
the holdings_calc backup variant embedded in src/app.py instead subtracts Sell
quantities from Buy quantities, so there a Sell record does change the net
quantity (see the counterexample). -/
theorem C10_non_buy_rows_ignored_by_loaders :
    (∀ l₁ l₂ : List Raw,
        l₁.filter (fun r => r.type == "Buy") = l₂.filter (fun r => r.type == "Buy") →
        (load_holdings (some l₁)).holdings = (load_holdings (some l₂)).holdings)
    ∧ (∀ m₁ m₂ : List DRow,
        m₁.filter (fun r => r.type == "Buy") = m₂.filter (fun r => r.type == "Buy") →
        dashLoad (some m₁) = dashLoad (some m₂)) := by
  constructor
  · intro l₁ l₂ hf
    simp only [load_holdings]
    refine congrArg finalize ?_
    unfold aggRows
    rw [foldl_filter_buy l₁, foldl_filter_buy l₂, hf]
  · intro m₁ m₂ hf
    have hagg : dashAgg m₁ = dashAgg m₂ := by
      unfold dashAgg
      rw [dash_foldl_filter_buy m₁, dash_foldl_filter_buy m₂, hf]
    simp [dashLoad, hagg]

theorem C10_non_buy_rows_ignored_by_loaders_witness :
    (([⟨"A", "Buy", some 10, some 100⟩, ⟨"A", "Sell", some 4, some 120⟩] : List Raw).filter
        (fun r => r.type == "Buy")
      = ([⟨"A", "Buy", some 10, some 100⟩] : List Raw).filter (fun r => r.type == "Buy"))
    ∧ (load_holdings (some [⟨"A", "Buy", some 10, some 100⟩, ⟨"A", "Sell", some 4, some 120⟩])).holdings
        = (load_holdings (some [⟨"A", "Buy", some 10, some 100⟩])).holdings :=
  ⟨by with_unfolding_all decide,
   C10_non_buy_rows_ignored_by_loaders.1 _ _ (by with_unfolding_all decide)⟩

theorem C10_counterexample_backup_aggregator_uses_sells :
    hcNetQty [⟨"A", "Buy", 10, 100⟩, ⟨"A", "Sell", 4, 120⟩] ("A") = 6
    ∧ hcNetQty [⟨"A", "Buy", 10, 100⟩] ("A") = 10
    ∧ (6 : ℚ) ≠ 10 := by
  with_unfolding_all decide

theorem insertAsc_perm (x : FullRow) (l : List FullRow) :
    List.Perm (insertAsc x l) (x :: l) := by
  induction l with
  | nil => exact List.Perm.refl _
  | cons y ys ih =>
    unfold insertAsc
    split
    · exact List.Perm.refl _
    · exact (List.Perm.cons y ih).trans (List.Perm.swap x y ys)

theorem mem_insertAsc (x z : FullRow) (l : List FullRow) :
    z ∈ insertAsc x l ↔ z = x ∨ z ∈ l := by
  rw [(insertAsc_perm x l).mem_iff]
  simp

theorem sortAsc_perm_aux (l : List FullRow) :
    ∀ acc : List FullRow,
      List.Perm (l.foldl (fun acc x => insertAsc x acc) acc) (acc ++ l) := by
  induction l with
  | nil => intro acc; simp
  | cons x xs ih =>
    intro acc
    rw [List.foldl_cons]
    refine (ih (insertAsc x acc)).trans ?_
    refine (List.Perm.append_right xs ((insertAsc_perm x acc))).trans ?_
    exact (List.perm_middle).symm

theorem sortAsc_perm (l : List FullRow) : List.Perm (sortAsc l) l := by
  simpa using sortAsc_perm_aux l []

theorem sortDesc_perm (l : List FullRow) : List.Perm (sortDesc l) l :=
  (List.reverse_perm _).trans (sortAsc_perm l)

theorem insertAsc_pairwise (x : FullRow) (l : List FullRow)
    (hl : l.Pairwise fun a b => sortKey a ≤ sortKey b) :
    (insertAsc x l).Pairwise fun a b => sortKey a ≤ sortKey b := by
  induction l with
  | nil => simp [insertAsc]
  | cons y ys ih =>
    rw [List.pairwise_cons] at hl
    unfold insertAsc
    split
    · rename_i hlt
      rw [List.pairwise_cons]
      refine ⟨?_, List.pairwise_cons.mpr hl⟩
      intro z hz
      rcases List.mem_cons.mp hz with hz | hz
      · rw [hz]; exact le_of_lt hlt
      · exact le_trans (le_of_lt hlt) (hl.1 z hz)
    · rename_i hge
      rw [List.pairwise_cons]
      refine ⟨?_, ih hl.2⟩
      intro z hz
      rcases (mem_insertAsc x z ys).mp hz with hz | hz
      · rw [hz]; exact le_of_not_lt hge
      · exact hl.1 z hz

theorem sortAsc_pairwise_aux (l : List FullRow) :
    ∀ acc : List FullRow, (acc.Pairwise fun a b => sortKey a ≤ sortKey b) →
      (l.foldl (fun acc x => insertAsc x acc) acc).Pairwise
        fun a b => sortKey a ≤ sortKey b := by
  induction l with
  | nil => intro acc h; exact h
  | cons x xs ih =>
    intro acc h
    rw [List.foldl_cons]
    exact ih _ (insertAsc_pairwise x acc h)

theorem sortAsc_pairwise (l : List FullRow) :
    (sortAsc l).Pairwise fun a b => sortKey a ≤ sortKey b :=
  sortAsc_pairwise_aux l [] (by simp)

theorem insertAsc_filter (x : FullRow) (l : List FullRow)
    (hl : l.Pairwise fun a b => sortKey a ≤ sortKey b) (c : ℚ) :
    (insertAsc x l).filter (fun r => decide (sortKey r = c))
      = if sortKey x = c
        then l.filter (fun r => decide (sortKey r = c)) ++ [x]
        else l.filter (fun r => decide (sortKey r = c)) := by
  induction l with
  | nil =>
    by_cases hx : sortKey x = c <;> simp [insertAsc, hx]
  | cons y ys ih =>
    rw [List.pairwise_cons] at hl
    unfold insertAsc
    split
    · rename_i hlt
      by_cases hx : sortKey x = c
      · have hnil : (y :: ys).filter (fun r => decide (sortKey r = c)) = [] := by
          rw [List.filter_eq_nil_iff]
          intro a ha
          have hya : sortKey y ≤ sortKey a := by
            rcases List.mem_cons.mp ha with h | h
            · rw [h]
            · exact hl.1 a h
          have : c < sortKey a := lt_of_lt_of_le (hx ▸ hlt) hya
          simp [ne_of_gt this]
        rw [hnil]
        simp [List.filter_cons, hx, hnil]
      · rw [if_neg hx]
        simp [List.filter_cons, hx]
    · rename_i hge
      rw [List.filter_cons, ih hl.2]
      by_cases hx : sortKey x = c <;> by_cases hy : (decide (sortKey y = c)) = true <;>
        simp [hx, hy]

theorem sortAsc_filter_aux (l : List FullRow) :
    ∀ acc : List FullRow, (acc.Pairwise fun a b => sortKey a ≤ sortKey b) →
      ∀ c : ℚ,
        (l.foldl (fun acc x => insertAsc x acc) acc).filter (fun r => decide (sortKey r = c))
          = acc.filter (fun r => decide (sortKey r = c))
            ++ l.filter (fun r => decide (sortKey r = c)) := by
  induction l with
  | nil => intro acc _ c; simp
  | cons x xs ih =>
    intro acc hacc c
    rw [List.foldl_cons, ih _ (insertAsc_pairwise x acc hacc) c,
      insertAsc_filter x acc hacc c, List.filter_cons]
    by_cases hx : sortKey x = c <;> simp [hx]

theorem sortDesc_filter (l : List FullRow) (c : ℚ) :
    (sortDesc l).filter (fun r => decide (sortKey r = c))
      = (l.filter (fun r => decide (sortKey r = c))).reverse := by
  unfold sortDesc
  rw [List.filter_reverse]
  congr 1
  simpa using sortAsc_filter_aux l [] (by simp) c

theorem sortDesc_pairwise (l : List FullRow) :
    (sortDesc l).Pairwise fun a b => sortKey b ≤ sortKey a := by
  unfold sortDesc
  rw [List.pairwise_reverse]
  exact sortAsc_pairwise l

theorem buildRows_price_congr (tickers : List String) (holdings : List (String × Holding))
    (prices prices2 : String → Option ℚ) (hp : ∀ t, prices t = prices2 t) :
    buildRows tickers holdings prices = buildRows tickers holdings prices2 := by
  unfold buildRows
  exact List.filterMap_congr fun t _ => by rw [hp t]

/-- C5 amended: the valuation table is sorted by current value in descending
order, rows with tied current value appear in REVERSE original instrument
order (pandas argsorts ascending and reverses the indexer), and the output is
a deterministic function of the inputs: pointwise equal price lookups give
identical output sequences. -/
theorem C5_sorted_descending_deterministic (tickers : List String)
    (holdings : List (String × Holding)) (prices : String → Option ℚ) :
    (build_holdings_df tickers holdings prices).Pairwise
        (fun a b => sortKey b ≤ sortKey a)
    ∧ (∀ c : ℚ,
        (build_holdings_df tickers holdings prices).filter (fun r => decide (sortKey r = c))
          = ((addAlloc (buildRows tickers holdings prices)).filter
              (fun r => decide (sortKey r = c))).reverse)
    ∧ (∀ prices2 : String → Option ℚ, (∀ t, prices t = prices2 t) →
        build_holdings_df tickers holdings prices
          = build_holdings_df tickers holdings prices2) := by
  refine ⟨sortDesc_pairwise _, fun c => sortDesc_filter _ c, ?_⟩
  intro prices2 hp
  unfold build_holdings_df
  rw [buildRows_price_congr tickers holdings prices prices2 hp]

theorem C5_sorted_descending_deterministic_witness :
    (∀ t : String, (fun _ : String => (some (100 : ℚ))) t
        = (fun _ : String => (some (100 : ℚ))) t)
    ∧ build_holdings_df (["AAA"]) ([("AAA", ⟨1, 100⟩)]) (fun _ => some 100)
        = build_holdings_df (["AAA"]) ([("AAA", ⟨1, 100⟩)]) (fun _ => some 100) :=
  ⟨fun _ => rfl,
   (C5_sorted_descending_deterministic (["AAA"]) ([("AAA", ⟨1, 100⟩)])
      (fun _ => some 100)).2.2 (fun _ => some 100) (fun _ => rfl)⟩

theorem C5_counterexample_ties_not_in_original_order :
    ((build_holdings_df (["AAA", "BBB"]) ([("AAA", ⟨1, 100⟩), ("BBB", ⟨1, 100⟩)])
        (fun _ => some 100)).map fun r => r.row.ticker) = ["BBB", "AAA"]
    ∧ ((addAlloc (buildRows (["AAA", "BBB"]) ([("AAA", ⟨1, 100⟩), ("BBB", ⟨1, 100⟩)])
        (fun _ => some 100))).map fun r => r.row.ticker) = ["AAA", "BBB"]
    ∧ ((build_holdings_df (["AAA", "BBB"]) ([("AAA", ⟨1, 100⟩), ("BBB", ⟨1, 100⟩)])
        (fun _ => some 100)).map fun r => sortKey r) = [100, 100]
    ∧ (["BBB", "AAA"] : List String) ≠ ["AAA", "BBB"] := by
  refine ⟨?_, ?_, ?_, by decide⟩ <;>
    simp +decide [build_holdings_df, sortDesc, sortAsc, insertAsc, addAlloc, buildRows,
      lookupH, mkRow, allocPct, round2, sortKey, pyReplace, replaceAux, startsWithL]

theorem round2_close (q : ℚ) : |round2 q - q| ≤ 1 / 200 := by
  unfold round2
  have hfl : ((Int.floor (q * 100) : ℤ) : ℚ) ≤ q * 100 := Int.floor_le (q * 100)
  have hfu : q * 100 < ((Int.floor (q * 100) : ℤ) : ℚ) + 1 := Int.lt_floor_add_one (q * 100)
  by_cases h1 : q * 100 - ((Int.floor (q * 100) : ℤ) : ℚ) < 1 / 2
  · rw [if_pos h1, abs_le]
    constructor <;> linarith
  · rw [if_neg h1]
    by_cases h2 : 1 / 2 < q * 100 - ((Int.floor (q * 100) : ℤ) : ℚ)
    · rw [if_pos h2, abs_le]
      push_cast
      constructor <;> linarith
    · rw [if_neg h2]
      have h3 : q * 100 - ((Int.floor (q * 100) : ℤ) : ℚ) = 1 / 2 := le_antisymm (not_lt.mp h2) (not_lt.mp h1)
      split <;> (rw [abs_le]; push_cast; constructor <;> linarith)

theorem sum_round2_close (l : List ℚ) :
    |(l.map round2).sum - l.sum| ≤ (l.length : ℚ) / 200 := by
  induction l with
  | nil => simp
  | cons x xs ih =>
    rw [List.map_cons, List.sum_cons, List.sum_cons, List.length_cons]
    have hkey : round2 x + (xs.map round2).sum - (x + xs.sum)
        = (round2 x - x) + ((xs.map round2).sum - xs.sum) := by ring
    rw [hkey]
    refine le_trans (abs_add _ _) ?_
    have h1 := round2_close x
    push_cast
    linarith

theorem sum_map_div_mul (l : List ℚ) (t : ℚ) :
    (l.map fun x => x / t * 100).sum = l.sum / t * 100 := by
  induction l with
  | nil => simp
  | cons x xs ih =>
    rw [List.map_cons, List.sum_cons, List.sum_cons, ih]
    ring

theorem addAlloc_filterMap_of_ne (rows : List VRow) (total : ℚ) (ht : total ≠ 0) :
    ((rows.map fun r => (⟨r, allocPct total r.current_value⟩ : FullRow)).filterMap
        fun fr => fr.alloc)
      = rows.map fun r => round2 (r.current_value / total * 100) := by
  induction rows with
  | nil => rfl
  | cons r rs ih =>
    rw [List.map_cons, List.map_cons,
      List.filterMap_cons_some
        (show ((⟨r, allocPct total r.current_value⟩ : FullRow)).alloc
            = some (round2 (r.current_value / total * 100)) from by
          show allocPct total r.current_value = _
          rw [allocPct, if_neg ht]),
      ih]

/-- C2 amended: whenever the total current value is strictly positive, the
allocation percentages (each rounded to two decimals by line 160) sum to 100
up to the rounding slack of one half-cent per row; when the total current
value is 0 the unguarded division makes every allocation NaN (none), not 0. -/
theorem C2_allocation_sum_and_zero_division (tickers : List String)
    (holdings : List (String × Holding)) (prices : String → Option ℚ) :
    (0 < totalCurrent tickers holdings prices →
      |((build_holdings_df tickers holdings prices).filterMap fun fr => fr.alloc).sum - 100|
        ≤ ((build_holdings_df tickers holdings prices).length : ℚ) / 200)
    ∧ (totalCurrent tickers holdings prices = 0 →
      ∀ fr ∈ build_holdings_df tickers holdings prices, fr.alloc = none) := by
  have hperm : List.Perm (build_holdings_df tickers holdings prices)
      (addAlloc (buildRows tickers holdings prices)) := sortDesc_perm _
  constructor
  · intro ht
    have hne : totalCurrent tickers holdings prices ≠ 0 := ne_of_gt ht
    have hsum : ((build_holdings_df tickers holdings prices).filterMap fun fr => fr.alloc).sum
        = ((addAlloc (buildRows tickers holdings prices)).filterMap fun fr => fr.alloc).sum :=
      (hperm.filterMap _).sum_eq
    have hext : ((addAlloc (buildRows tickers holdings prices)).filterMap fun fr => fr.alloc)
        = (buildRows tickers holdings prices).map
            fun r => round2 (r.current_value / totalCurrent tickers holdings prices * 100) := by
      unfold addAlloc
      exact addAlloc_filterMap_of_ne _ _ hne
    have hmm : ((buildRows tickers holdings prices).map
          fun r => round2 (r.current_value / totalCurrent tickers holdings prices * 100))
        = (((buildRows tickers holdings prices).map fun r => r.current_value).map
            fun x => x / totalCurrent tickers holdings prices * 100).map round2 := by
      rw [List.map_map, List.map_map]
      rfl
    have hxs : ((((buildRows tickers holdings prices).map fun r => r.current_value).map
          fun x => x / totalCurrent tickers holdings prices * 100)).sum = 100 := by
      rw [sum_map_div_mul]
      rw [show (((buildRows tickers holdings prices).map fun r => r.current_value)).sum
          = totalCurrent tickers holdings prices from rfl]
      field_simp
    have hlen : (build_holdings_df tickers holdings prices).length
        = ((((buildRows tickers holdings prices).map fun r => r.current_value).map
            fun x => x / totalCurrent tickers holdings prices * 100)).length := by
      rw [hperm.length_eq]
      unfold addAlloc
      simp
    rw [hsum, hext, hmm, hlen]
    have hb := sum_round2_close ((((buildRows tickers holdings prices).map
        fun r => r.current_value).map
          fun x => x / totalCurrent tickers holdings prices * 100))
    rw [hxs] at hb
    exact hb
  · intro ht fr hfr
    have hfr2 : fr ∈ addAlloc (buildRows tickers holdings prices) := hperm.mem_iff.mp hfr
    unfold addAlloc at hfr2
    rcases List.mem_map.mp hfr2 with ⟨r, _, hr⟩
    rw [← hr]
    show allocPct (((buildRows tickers holdings prices).map fun r => r.current_value).sum)
        r.current_value = none
    rw [show (((buildRows tickers holdings prices).map fun r => r.current_value)).sum
        = totalCurrent tickers holdings prices from rfl, allocPct, if_pos ht]

set_option maxHeartbeats 2000000 in
theorem C2_allocation_sum_and_zero_division_witness :
    (0 < totalCurrent (["A"]) ([("A", ⟨1, 100⟩)]) (fun _ => some 100)
      ∧ |((build_holdings_df (["A"]) ([("A", ⟨1, 100⟩)]) (fun _ => some 100)).filterMap
            fun fr => fr.alloc).sum - 100|
          ≤ ((build_holdings_df (["A"]) ([("A", ⟨1, 100⟩)]) (fun _ => some 100)).length : ℚ)
              / 200)
    ∧ (totalCurrent (["Z"]) ([("Z", ⟨1, 0⟩)]) (fun _ => none) = 0
      ∧ (⟨mkRow ("Z") ⟨1, 0⟩ none, none⟩ : FullRow).alloc = none) :=
  ⟨⟨by with_unfolding_all decide,
    (C2_allocation_sum_and_zero_division (["A"]) ([("A", ⟨1, 100⟩)]) (fun _ => some 100)).1
      (by with_unfolding_all decide)⟩,
   ⟨by with_unfolding_all decide,
    (C2_allocation_sum_and_zero_division (["Z"]) ([("Z", ⟨1, 0⟩)]) (fun _ => none)).2
      (by with_unfolding_all decide) ⟨mkRow ("Z") ⟨1, 0⟩ none, none⟩
      (by with_unfolding_all decide)⟩⟩

theorem C2_counterexample_nan_and_rounding_drift :
    ((build_holdings_df (["Z"]) ([("Z", ⟨1, 0⟩)]) (fun _ => none)).map fun fr => fr.alloc)
        = [none]
    ∧ totalCurrent (["Z"]) ([("Z", ⟨1, 0⟩)]) (fun _ => none) = 0
    ∧ ((build_holdings_df (["A", "B", "C"])
          ([("A", ⟨1, 1⟩), ("B", ⟨1, 1⟩), ("C", ⟨1, 1⟩)])
          (fun _ => some 1)).filterMap fun fr => fr.alloc).sum = 9999 / 100
    ∧ ¬ |(9999 / 100 : ℚ) - 100| ≤ 1 / 1000000 := by
  refine ⟨?_, ?_, ?_, ?_⟩
  · simp +decide [build_holdings_df, sortDesc, sortAsc, insertAsc, addAlloc, buildRows,
      lookupH, mkRow, allocPct, round2, sortKey, totalCurrent, pyReplace, replaceAux,
      startsWithL]
  · simp +decide [build_holdings_df, sortDesc, sortAsc, insertAsc, addAlloc, buildRows,
      lookupH, mkRow, allocPct, round2, sortKey, totalCurrent, pyReplace, replaceAux,
      startsWithL]
  · simp +decide [build_holdings_df, sortDesc, sortAsc, insertAsc, addAlloc, buildRows,
      lookupH, mkRow, allocPct, round2, sortKey, totalCurrent, pyReplace, replaceAux,
      startsWithL]
    norm_num [List.filterMap_cons, List.sum_cons, List.sum_nil, Int.fract, Int.floor_eq_iff]
  · rw [show (9999 / 100 : ℚ) - 100 = -(1 / 100) from by norm_num, abs_neg,
      abs_of_pos (show (0 : ℚ) < 1 / 100 from by norm_num)]
    norm_num

/-- C3: a position whose price lookup is unavailable (failure, empty history
or NaN, all modelled as none) is emitted as a row whose last price equals the
average cost, whose unrealized profit and loss is 0, and whose status is the
fallback marker Avg Fallback; a numeric lookup yields status Live with that
price.  The fallback is a total branch of the row constructor, never an
error. -/
theorem C3_price_unavailable_fallback (tickers : List String)
    (holdings : List (String × Holding)) (prices : String → Option ℚ)
    (t : String) (h : Holding) (hmem : t ∈ tickers) (hl : lookupH t holdings = some h) :
    mkRow t h (prices t) ∈ buildRows tickers holdings prices
    ∧ (prices t = none →
        (mkRow t h (prices t)).ltp = h.avg_price
        ∧ (mkRow t h (prices t)).unrealized_pl = 0
        ∧ (mkRow t h (prices t)).status = "Avg Fallback")
    ∧ (∀ p : ℚ, prices t = some p →
        (mkRow t h (prices t)).status = "Live" ∧ (mkRow t h (prices t)).ltp = p) := by
  refine ⟨?_, ?_, ?_⟩
  · unfold buildRows
    exact List.mem_filterMap.mpr ⟨t, hmem, by rw [hl]; rfl⟩
  · intro hp
    rw [hp]
    refine ⟨rfl, ?_, rfl⟩
    show h.qty * h.avg_price - h.qty * h.avg_price = 0
    ring
  · intro p hp
    rw [hp]
    exact ⟨rfl, rfl⟩

theorem C3_price_unavailable_fallback_witness :
    ("A" ∈ (["A"] : List String))
    ∧ lookupH ("A") ([("A", (⟨10, 100⟩ : Holding))]) = some ⟨10, 100⟩
    ∧ ((mkRow ("A") ⟨10, 100⟩ ((fun _ : String => (none : Option ℚ)) ("A"))).ltp
          = (⟨10, 100⟩ : Holding).avg_price
      ∧ (mkRow ("A") ⟨10, 100⟩ ((fun _ : String => (none : Option ℚ)) ("A"))).unrealized_pl = 0
      ∧ (mkRow ("A") ⟨10, 100⟩ ((fun _ : String => (none : Option ℚ)) ("A"))).status
          = "Avg Fallback") :=
  ⟨by decide, by with_unfolding_all decide,
   (C3_price_unavailable_fallback (["A"]) ([("A", ⟨10, 100⟩)]) (fun _ => none) ("A")
      ⟨10, 100⟩ (by decide) (by with_unfolding_all decide)).2.1 rfl⟩

theorem sum_pl_eq_cv_sub_inv (l : List FullRow)
    (h : ∀ v ∈ l, v.row.unrealized_pl = v.row.current_value - v.row.invested) :
    (l.map fun v => v.row.unrealized_pl).sum
      = (l.map fun v => v.row.current_value).sum - (l.map fun v => v.row.invested).sum := by
  induction l with
  | nil => simp
  | cons x xs ih =>
    rw [List.map_cons, List.map_cons, List.map_cons, List.sum_cons, List.sum_cons,
      List.sum_cons, h x (by simp), ih fun v hv => h v (by simp [hv])]
    ring

theorem build_rows_pl_relation (tickers : List String) (holdings : List (String × Holding))
    (prices : String → Option ℚ) :
    ∀ fr ∈ build_holdings_df tickers holdings prices,
      fr.row.unrealized_pl = fr.row.current_value - fr.row.invested := by
  intro fr hfr
  have hfr2 : fr ∈ addAlloc (buildRows tickers holdings prices) :=
    (sortDesc_perm _).mem_iff.mp hfr
  unfold addAlloc at hfr2
  rcases List.mem_map.mp hfr2 with ⟨r, hr, hfr3⟩
  rcases List.mem_filterMap.mp hr with ⟨t, _, hmk⟩
  rcases Option.map_eq_some'.mp hmk with ⟨h, _, hmk2⟩
  rw [← hfr3]
  show r.unrealized_pl = r.current_value - r.invested
  rw [← hmk2]
  show (mkRow t h (prices t)).qty * _ - (mkRow t h (prices t)).qty * _
      = (mkRow t h (prices t)).current_value - (mkRow t h (prices t)).invested
  rfl

/-- C4 amended: in the streamlit app the displayed total return is the sum of
unrealized profit and loss over all rows divided by the total invested, times
100, equivalently (total value minus total invested) over total invested times
100, and 0 when total invested is 0; the dash app of src/app.py instead
reports the unweighted mean of the per-row percentage changes, which differs
whenever invested amounts differ across rows (see the counterexample). -/
theorem C4_total_return_formula (tickers : List String)
    (holdings : List (String × Holding)) (prices : String → Option ℚ) :
    (totalInvested (build_holdings_df tickers holdings prices) ≠ 0 →
      total_return_pct (build_holdings_df tickers holdings prices)
          = totalPL (build_holdings_df tickers holdings prices)
            / totalInvested (build_holdings_df tickers holdings prices) * 100
        ∧ total_return_pct (build_holdings_df tickers holdings prices)
          = (totalValue (build_holdings_df tickers holdings prices)
              - totalInvested (build_holdings_df tickers holdings prices))
            / totalInvested (build_holdings_df tickers holdings prices) * 100)
    ∧ (totalInvested (build_holdings_df tickers holdings prices) = 0 →
      total_return_pct (build_holdings_df tickers holdings prices) = 0) := by
  constructor
  · intro ht
    have hpl : totalPL (build_holdings_df tickers holdings prices)
        = totalValue (build_holdings_df tickers holdings prices)
          - totalInvested (build_holdings_df tickers holdings prices) := by
      unfold totalPL totalValue totalInvested
      exact sum_pl_eq_cv_sub_inv _ (build_rows_pl_relation tickers holdings prices)
    constructor
    · unfold total_return_pct
      rw [if_pos ht]
    · unfold total_return_pct
      rw [if_pos ht, hpl]
  · intro ht
    unfold total_return_pct
    rw [ht]
    simp

set_option maxHeartbeats 2000000 in
theorem C4_total_return_formula_witness :
    (totalInvested (build_holdings_df (["A"]) ([("A", ⟨1, 100⟩)]) (fun _ => some 150)) ≠ 0)
    ∧ (total_return_pct (build_holdings_df (["A"]) ([("A", ⟨1, 100⟩)]) (fun _ => some 150))
          = totalPL (build_holdings_df (["A"]) ([("A", ⟨1, 100⟩)]) (fun _ => some 150))
            / totalInvested (build_holdings_df (["A"]) ([("A", ⟨1, 100⟩)]) (fun _ => some 150))
            * 100
      ∧ total_return_pct (build_holdings_df (["A"]) ([("A", ⟨1, 100⟩)]) (fun _ => some 150))
          = (totalValue (build_holdings_df (["A"]) ([("A", ⟨1, 100⟩)]) (fun _ => some 150))
              - totalInvested (build_holdings_df (["A"]) ([("A", ⟨1, 100⟩)]) (fun _ => some 150)))
            / totalInvested (build_holdings_df (["A"]) ([("A", ⟨1, 100⟩)]) (fun _ => some 150))
            * 100) :=
  ⟨by with_unfolding_all decide,
   (C4_total_return_formula (["A"]) ([("A", ⟨1, 100⟩)]) (fun _ => some 150)).1
     (by with_unfolding_all decide)⟩

theorem C4_counterexample_dash_mean_differs :
    dashTotalReturn (dashBuildRows (["A", "B"])
        ([("A", ⟨1, 100⟩), ("B", ⟨1, 300⟩)])
        (fun t => if t = "A" then some 200 else if t = "B" then some 300 else none)) = 50
    ∧ total_return_pct (build_holdings_df (["A", "B"])
        ([("A", ⟨1, 100⟩), ("B", ⟨1, 300⟩)])
        (fun t => if t = "A" then some 200 else if t = "B" then some 300 else none)) = 25
    ∧ (50 : ℚ) ≠ 25 := by
  refine ⟨?_, ?_, by norm_num⟩
  · simp +decide [dashTotalReturn, dashBuildRows, lookupH, dashMkRow, round2, pyReplace,
      replaceAux, startsWithL]
    norm_num [List.filterMap_cons, List.sum_cons, List.sum_nil, Int.fract, Int.floor_eq_iff]
  · simp +decide [total_return_pct, totalPL, totalInvested, build_holdings_df, sortDesc,
      sortAsc, insertAsc, addAlloc, buildRows, lookupH, mkRow, allocPct, round2, sortKey,
      pyReplace, replaceAux, startsWithL]
    norm_num [List.filterMap_cons, List.sum_cons, List.sum_nil, Int.fract, Int.floor_eq_iff]

end Groww
